import Mathlib

/-!
Verification development for the chromelens color-extraction core
(`src/unnamed/part_002`): RGB/HSL/hex conversion, rule-based color
categorization, and the palette extraction pipeline (sampling,
quantization, counting, stable dominance ranking, greedy distinctness
filtering, assembly into categorized views).

All machine numbers are embedded as `Nat`/`Int`/`ℚ`; the JS float
arithmetic of `rgbToHsl` is embedded as exact rational arithmetic, and
`Math.round` as Mathlib's `round` (both are `⌊x + 1/2⌋`).
-/

namespace ChromeLens

/-- `RGB` record: three 8-bit channels (src/types, `interface RGB`). -/
structure RGB where
  r : Nat
  g : Nat
  b : Nat
deriving DecidableEq, Repr

/-- `HSL` record: hue in degrees, saturation and lightness fractions
(src/types, `interface HSL`). -/
structure HSL where
  h : ℚ
  s : ℚ
  l : ℚ
deriving DecidableEq, Repr

/-- The three category labels `'Warm' | 'Cool' | 'Neutral'`. -/
inductive Category where
  | Warm
  | Cool
  | Neutral
deriving DecidableEq, Repr

/-- Base-16 digit emission, fuel-structured embedding of
`Number.prototype.toString(16)` for non-negative integers: most
significant digit first, lowercase. -/
def natToHexAux : Nat → Nat → List Char
  | 0, _ => []
  | fuel + 1, n =>
    if n < 16 then [Nat.digitChar n]
    else natToHexAux fuel (n / 16) ++ [Nat.digitChar (n % 16)]

/-- `n.toString(16)` as a character list (fuel `n + 1` always suffices). -/
def natToHex (n : Nat) : List Char := natToHexAux (n + 1) n

/-- `rgbToHex`: `'#' + ((1 << 24) + (r << 16) + (g << 8) + b).toString(16).slice(1)`. -/
def rgbToHex (c : RGB) : String :=
  "#" ++ ((natToHex ((1 <<< 24) + (c.r <<< 16) + (c.g <<< 8) + c.b)).drop 1).asString

/-- Value of one hexadecimal digit character, case-insensitive
(the per-digit semantics of `parseInt(s, 16)` on validated digits). -/
def hexVal (ch : Char) : Nat :=
  if '0' ≤ ch ∧ ch ≤ '9' then ch.toNat - 48
  else if 'a' ≤ ch ∧ ch ≤ 'f' then ch.toNat - 87
  else if 'A' ≤ ch ∧ ch ≤ 'F' then ch.toNat - 55
  else 0

/-- The character class `[a-f\d]` under the `i` flag: a decimal digit or a
hex letter of either case. -/
def isHexDigitChar (ch : Char) : Bool :=
  ('0' ≤ ch && ch ≤ '9') || ('a' ≤ ch && ch ≤ 'f') || ('A' ≤ ch && ch ≤ 'F')

/-- The part of the `hexToRgb` regex after the optional `#`: exactly three
capture groups of two hex digits each, ending at the end of input; on a
match, each group goes through `parseInt(group, 16)`. -/
def parseHexBody : List Char → Option RGB
  | [c1, c2, c3, c4, c5, c6] =>
    if isHexDigitChar c1 && isHexDigitChar c2 && isHexDigitChar c3 &&
        isHexDigitChar c4 && isHexDigitChar c5 && isHexDigitChar c6 then
      some ⟨hexVal c1 * 16 + hexVal c2, hexVal c3 * 16 + hexVal c4,
            hexVal c5 * 16 + hexVal c6⟩
    else none
  | _ => none

/-- `hexToRgb`: `/^#?([a-f\d]{2})([a-f\d]{2})([a-f\d]{2})$/i.exec(hex)`,
then `parseInt(group, 16)` per channel; `null` on no match.  The `#?` is
the conditional strip of a leading `#`. -/
def hexToRgb (s : String) : Option RGB :=
  parseHexBody (if s.data.head? = some '#' then s.data.tail else s.data)

/-- The spec's accepted-input class for `hexToRgb` (§4.1, written from the
spec's words for the refinement comparison): an optional leading `#`
followed by exactly 6 hexadecimal digits, case-insensitive. -/
def validHexFormat (s : String) : Prop :=
  ∃ t : List Char, (s.data = '#' :: t ∨ s.data = t) ∧ t.length = 6 ∧
    ∀ ch ∈ t, isHexDigitChar ch = true

/-- `rgbToHsl`: scale channels to `[0,1]`, compute max/min, lightness,
saturation and the six-sector hue, finally `Math.round(h * 360)`. -/
def rgbToHsl (c : RGB) : HSL :=
  let r : ℚ := (c.r : ℚ) / 255
  let g : ℚ := (c.g : ℚ) / 255
  let b : ℚ := (c.b : ℚ) / 255
  let mx := max r (max g b)
  let mn := min r (min g b)
  let l := (mx + mn) / 2
  if mx = mn then
    ⟨0, 0, l⟩
  else
    let d := mx - mn
    let s := if 1/2 < l then d / (2 - mx - mn) else d / (mx + mn)
    let h0 :=
      if mx = r then (g - b) / d + (if g < b then (6 : ℚ) else 0)
      else if mx = g then (b - r) / d + 2
      else (r - g) / d + 4
    ⟨((round (h0 / 6 * 360) : ℤ) : ℚ), s, l⟩

/-- `categorizeColor`: Neutral / Warm / Cool rules, first match wins. -/
def categorizeColor (x : HSL) : Category :=
  if x.s ≤ 0.18 ∨ x.l ≤ 0.12 ∨ 0.95 ≤ x.l then .Neutral
  else if (0 ≤ x.h ∧ x.h < 90) ∨ (315 ≤ x.h ∧ x.h ≤ 360) then .Warm
  else .Cool

/-- `isAccentColor`: `hsl.s >= 0.45 && hsl.l >= 0.2 && hsl.l <= 0.85`. -/
def isAccentColor (x : HSL) : Bool :=
  decide ((0.45 : ℚ) ≤ x.s) && decide ((0.2 : ℚ) ≤ x.l) && decide (x.l ≤ (0.85 : ℚ))

/-- `colorDistanceSq`: squared Euclidean RGB distance. -/
def colorDistanceSq (c1 c2 : RGB) : ℤ :=
  ((c1.r : ℤ) - (c2.r : ℤ)) ^ 2 + ((c1.g : ℤ) - (c2.g : ℤ)) ^ 2 +
    ((c1.b : ℤ) - (c2.b : ℤ)) ^ 2

/-- A finalized palette entry (src/types, `interface ColorData`). -/
structure ColorData where
  hex : String
  rgb : RGB
  hsl : HSL
  category : Category
  population : Nat
deriving DecidableEq, Repr

/-- The extraction result (src/types, `interface PaletteAnalysis`). -/
structure PaletteAnalysis where
  all : List ColorData
  warm : List ColorData
  cool : List ColorData
  neutral : List ColorData
  accents : List ColorData
deriving DecidableEq, Repr

/-- A raster as the extraction core receives it: width, height, and the
row-major RGBA byte buffer (`imageData.data`). -/
structure Raster where
  width : Nat
  height : Nat
  data : List Nat
deriving DecidableEq, Repr

/-- The error taxonomy of the spec, §7: `InvalidInput`. -/
inductive ExtractError where
  | invalidInput
deriving DecidableEq, Repr

/-- One entry of the `colorCounts` map: running count plus the
representative quantized RGB. -/
structure Bucket where
  count : Nat
  r : Nat
  g : Nat
  b : Nat
deriving DecidableEq, Repr

/-- The quantization step: `const quantize = 12`. -/
def quantize : Nat := 12

/-- `data[i]`, with out-of-range reads defaulting to 0. -/
def readByte (data : List Nat) (i : Nat) : Nat := data.getD i 0

/-- The indices `0, step, 2*step, ...` that are `< len`
(the loop `for (let i = 0; i < data.length; i += 4 * sampleRate)`,
with `step = 4 * sampleRate`). -/
def sampleIndices (len step : Nat) : List Nat :=
  (List.range ((len + step - 1) / step)).map (fun k => k * step)

/-- One iteration of the sampling loop: read RGBA at index `i`, skip if
`a < 200`, quantize each channel by `(v / quantize | 0) * quantize`,
and update the insertion-ordered `colorCounts` map under the key
`(qr << 16) | (qg << 8) | qb`. -/
def stepPixel (data : List Nat) (m : List (Nat × Bucket)) (i : Nat) : List (Nat × Bucket) :=
  let r := readByte data i
  let g := readByte data (i + 1)
  let b := readByte data (i + 2)
  let a := readByte data (i + 3)
  if a < 200 then m
  else
    let qr := r / quantize * quantize
    let qg := g / quantize * quantize
    let qb := b / quantize * quantize
    let key := (qr <<< 16) ||| (qg <<< 8) ||| qb
    if (m.lookup key).isSome then
      m.map (fun p => if p.1 = key then (p.1, ⟨p.2.count + 1, p.2.r, p.2.g, p.2.b⟩) else p)
    else
      m ++ [(key, ⟨1, qr, qg, qb⟩)]

/-- The full `colorCounts` map after the sampling loop, as an association
list in insertion order (a JS `Map` iterates in insertion order). -/
def colorCounts (data : List Nat) (sampleRate : Nat) : List (Nat × Bucket) :=
  (sampleIndices data.length (4 * sampleRate)).foldl (stepPixel data) []

/-- Stable insertion of a bucket into a descending-by-count list: `a` goes
after every earlier element with a strictly larger count and before the
first element whose count is `≤ a.count`. -/
def insertByCount (a : Bucket) : List Bucket → List Bucket
  | [] => [a]
  | x :: xs => if a.count < x.count then x :: insertByCount a xs else a :: x :: xs

/-- `Array.from(colorCounts.values()).sort((a, b) => b.count - a.count)`:
the unique stable descending-by-count reordering (JS `Array.prototype.sort`
is stable, so insertion sort with a strict comparison reproduces it). -/
def sortByCountDesc : List Bucket → List Bucket
  | [] => []
  | x :: xs => insertByCount x (sortByCountDesc xs)

/-- The greedy distinctness filter: walk the ranked list, stop at
`maxColors` accepted entries, accept a candidate only if its squared
distance to every already-accepted bucket exceeds `50 * 50`. -/
def filterDistinct (maxColors : Nat) : List Bucket → List Bucket → List Bucket
  | acc, [] => acc
  | acc, c :: rest =>
    if maxColors ≤ acc.length then acc
    else if acc.all (fun e => decide (2500 < colorDistanceSq ⟨e.r, e.g, e.b⟩ ⟨c.r, c.g, c.b⟩)) then
      filterDistinct maxColors (acc ++ [c]) rest
    else
      filterDistinct maxColors acc rest

/-- The distinct ranked buckets for a data buffer and parameters. -/
def distinctOf (data : List Nat) (sampleRate maxColors : Nat) : List Bucket :=
  filterDistinct maxColors [] (sortByCountDesc ((colorCounts data sampleRate).map Prod.snd))

/-- Assembly of one accepted bucket into a `ColorData`. -/
def toColorData (c : Bucket) : ColorData :=
  let rgb : RGB := ⟨c.r, c.g, c.b⟩
  let hsl := rgbToHsl rgb
  ⟨rgbToHex rgb, rgb, hsl, categorizeColor hsl, c.count⟩

/-- `extractColors`.  Modelled from the spec: the `InvalidInput` failure on a
zero-width or zero-height raster (spec §4.3/§7) — in the source this failure
arises at the canvas boundary (`getImageData` on a zero-sized canvas throws,
and the surrounding try/catch rejects the promise) before any pixel is
sampled.  The sampling, quantization, counting, stable ranking, distinctness
filtering and assembly are translated from `src/unnamed/part_002`. -/
def extractColors (raster : Raster) (sampleRate maxColors : Nat) :
    Except ExtractError PaletteAnalysis :=
  if raster.width = 0 ∨ raster.height = 0 then .error .invalidInput
  else
    let all := (distinctOf raster.data sampleRate maxColors).map toColorData
    .ok ⟨all,
      all.filter (fun c => decide (c.category = .Warm)),
      all.filter (fun c => decide (c.category = .Cool)),
      all.filter (fun c => decide (c.category = .Neutral)),
      all.filter (fun c => isAccentColor c.hsl)⟩

/-- The 2×2 test raster of the spec's concrete scenario (§8): pixels
(255,0,0,255), (250,5,5,255), (0,0,255,255), (0,255,0,128). -/
def testRaster : Raster :=
  ⟨2, 2, [255, 0, 0, 255, 250, 5, 5, 255, 0, 0, 255, 255, 0, 255, 0, 128]⟩

/-- The palette entry actually produced for the dominant red bucket of
`testRaster`. -/
def redData : ColorData :=
  ⟨"#fc0000", ⟨252, 0, 0⟩, ⟨0, 1, 42/85⟩, .Warm, 1⟩

/-- The palette entry actually produced for the blue bucket of `testRaster`. -/
def blueData : ColorData :=
  ⟨"#0000fc", ⟨0, 0, 252⟩, ⟨240, 1, 42/85⟩, .Cool, 1⟩

/-- The full extraction result on `testRaster`. -/
def testResult : PaletteAnalysis :=
  ⟨[redData, blueData], [redData], [blueData], [], [redData, blueData]⟩

/-! ## Helper lemmas -/

theorem rgbToHsl_red252 : rgbToHsl ⟨252, 0, 0⟩ = ⟨0, 1, 42/85⟩ := by
  simp only [rgbToHsl]
  norm_num [max_def, min_def, round_eq]

theorem rgbToHsl_blue252 : rgbToHsl ⟨0, 0, 252⟩ = ⟨240, 1, 42/85⟩ := by
  simp only [rgbToHsl]
  norm_num [max_def, min_def, round_eq]

theorem categorize_red252 : categorizeColor ⟨0, 1, 42/85⟩ = .Warm := by
  rw [categorizeColor, if_neg (by norm_num), if_pos (by norm_num)]

theorem categorize_blue252 : categorizeColor ⟨240, 1, 42/85⟩ = .Cool := by
  rw [categorizeColor, if_neg (by norm_num), if_neg (by norm_num)]

theorem isAccent_one_4285 (q : ℚ) : isAccentColor ⟨q, 1, 42/85⟩ = true := by
  simp only [isAccentColor, Bool.and_eq_true, decide_eq_true_eq]
  norm_num

theorem toColorData_red : toColorData ⟨1, 252, 0, 0⟩ = redData := by
  simp only [toColorData, rgbToHsl_red252, redData, categorize_red252]
  rw [show rgbToHex ⟨252, 0, 0⟩ = "#fc0000" from by decide]

theorem toColorData_blue : toColorData ⟨1, 0, 0, 252⟩ = blueData := by
  simp only [toColorData, rgbToHsl_blue252, blueData, categorize_blue252]
  rw [show rgbToHex ⟨0, 0, 252⟩ = "#0000fc" from by decide]

theorem distinctOf_testRaster :
    distinctOf testRaster.data 1 8 = [⟨1, 252, 0, 0⟩, ⟨1, 0, 0, 252⟩] := by decide

theorem extractColors_testRaster : extractColors testRaster 1 8 = .ok testResult := by
  rw [extractColors, if_neg (by decide)]
  rw [distinctOf_testRaster]
  simp only [List.map_cons, List.map_nil, toColorData_red, toColorData_blue]
  rw [testResult]
  have hwa : redData.category = .Warm := rfl
  have hco : blueData.category = .Cool := rfl
  have har : isAccentColor redData.hsl = true := isAccent_one_4285 0
  have hab : isAccentColor blueData.hsl = true := isAccent_one_4285 240
  simp [List.filter, hwa, hco, har, hab]

/-! ## Claim theorems -/

/-- C1, counterexample: on the 2×2 scenario raster the two near-red pixels
do NOT quantize into one bucket — `colorCounts` holds three buckets
(252,0,0), (240,0,0) and (0,0,252), each with population 1 — and the
resulting `all` carries populations [1, 1], not a red entry of
population 2. -/
theorem c1_counterexample :
    (colorCounts testRaster.data 1).length = 3 ∧
    (colorCounts testRaster.data 1).map (fun p => (p.2.r, p.2.g, p.2.b, p.2.count)) =
      [(252, 0, 0, 1), (240, 0, 0, 1), (0, 0, 252, 1)] ∧
    extractColors testRaster 1 8 = .ok testResult ∧
    testResult.all.map ColorData.population = [1, 1] := by
  refine ⟨by decide, by decide, extractColors_testRaster, by decide⟩

/-- C1, amended: on the 2×2 scenario raster (stride 1, max palette size 8)
the alpha-128 pixel is skipped; (255,0,0) and (250,5,5) quantize (step 12)
into two DIFFERENT buckets (252,0,0) and (240,0,0), each of population 1;
the distinctness filter then drops (240,0,0) (squared distance 144 ≤ 2500
from (252,0,0)); `all` has exactly 2 entries, a red-family entry
(category Warm, population 1) first and a blue entry (category Cool,
population 1) second, the tie broken by first-encounter order. -/
theorem c1_amended :
    colorCounts testRaster.data 1 =
      [(16515072, ⟨1, 252, 0, 0⟩), (15728640, ⟨1, 240, 0, 0⟩), (252, ⟨1, 0, 0, 252⟩)] ∧
    colorDistanceSq ⟨252, 0, 0⟩ ⟨240, 0, 0⟩ = 144 ∧
    distinctOf testRaster.data 1 8 = [⟨1, 252, 0, 0⟩, ⟨1, 0, 0, 252⟩] ∧
    extractColors testRaster 1 8 = .ok testResult ∧
    testResult.all = [redData, blueData] ∧
    redData.rgb = ⟨252, 0, 0⟩ ∧ redData.category = .Warm ∧ redData.population = 1 ∧
    blueData.rgb = ⟨0, 0, 252⟩ ∧ blueData.category = .Cool ∧ blueData.population = 1 := by
  exact ⟨by decide, by decide, distinctOf_testRaster, extractColors_testRaster,
    rfl, rfl, rfl, rfl, rfl, rfl, rfl⟩

/-- C2: `categorizeColor` applies its three rules in order with first match
winning (Neutral on `s ≤ 0.18 ∨ l ≤ 0.12 ∨ l ≥ 0.95`; else Warm on hue in
`[0,90) ∪ [315,360]`; else Cool); and on the HSL hue range, with s = l = 0.5,
it returns Warm exactly when `h < 90 ∨ h ≥ 315` (hue 90 itself is not
Warm). -/
theorem c2_categorize_rules :
    (∀ x : HSL, (x.s ≤ 0.18 ∨ x.l ≤ 0.12 ∨ 0.95 ≤ x.l) → categorizeColor x = .Neutral) ∧
    (∀ x : HSL, ¬(x.s ≤ 0.18 ∨ x.l ≤ 0.12 ∨ 0.95 ≤ x.l) →
      ((0 ≤ x.h ∧ x.h < 90) ∨ (315 ≤ x.h ∧ x.h ≤ 360)) → categorizeColor x = .Warm) ∧
    (∀ x : HSL, ¬(x.s ≤ 0.18 ∨ x.l ≤ 0.12 ∨ 0.95 ≤ x.l) →
      ¬((0 ≤ x.h ∧ x.h < 90) ∨ (315 ≤ x.h ∧ x.h ≤ 360)) → categorizeColor x = .Cool) ∧
    (∀ q : ℚ, 0 ≤ q → q ≤ 360 →
      (categorizeColor ⟨q, 0.5, 0.5⟩ = .Warm ↔ (q < 90 ∨ 315 ≤ q))) := by
  refine ⟨?_, ?_, ?_, ?_⟩
  · intro x hx
    rw [categorizeColor, if_pos hx]
  · intro x hx hw
    rw [categorizeColor, if_neg hx, if_pos hw]
  · intro x hx hw
    rw [categorizeColor, if_neg hx, if_neg hw]
  · intro q h0 h360
    rw [categorizeColor, if_neg (by norm_num)]
    by_cases hc : ((0 : ℚ) ≤ q ∧ q < 90) ∨ ((315 : ℚ) ≤ q ∧ q ≤ 360)
    · rw [if_pos hc]
      simp only [true_iff]
      rcases hc with ⟨-, h⟩ | ⟨h, -⟩
      · exact Or.inl h
      · exact Or.inr h
    · rw [if_neg hc]
      push_neg at hc
      refine iff_of_false (by simp) ?_
      rintro (h | h)
      · linarith [hc.1 h0]
      · linarith [hc.2 h]

/-- C3, counterexample: `rgbToHsl` can return hue 360, outside the claimed
range `[0,360)`: on rgb (255,0,1) the hue sector is `6 - 1/255`, and
`Math.round((6 - 1/255)/6 * 360) = round(359.7647…) = 360`. -/
theorem c3_counterexample :
    (rgbToHsl ⟨255, 0, 1⟩).h = 360 ∧ ¬ (rgbToHsl ⟨255, 0, 1⟩).h < 360 := by
  have h : rgbToHsl ⟨255, 0, 1⟩ = ⟨360, 1, 1/2⟩ := by
    simp only [rgbToHsl]
    norm_num [max_def, min_def, round_eq]
  rw [h]
  norm_num

/-- Bounds on the rounded hue: a sector value in `[0,6)` yields a rounded
degree value in `[0,360]` (360 is reachable by rounding up). -/
theorem round_hue_bounds (x : ℚ) (h0 : 0 ≤ x) (h6 : x < 6) :
    0 ≤ round (x / 6 * 360) ∧ round (x / 6 * 360) ≤ 360 := by
  have he : x / 6 * 360 = 60 * x := by ring
  constructor
  · rw [round_eq, he]
    exact Int.floor_nonneg.mpr (by linarith)
  · rw [round_eq, he]
    have hf : ⌊60 * x + 1 / 2⌋ < (361 : ℤ) := Int.floor_lt.mpr (by push_cast; linarith)
    omega

theorem hslH_bounds (c : RGB) (hr : c.r ≤ 255) (hg : c.g ≤ 255) (hb : c.b ≤ 255) :
    ∃ n : ℤ, (rgbToHsl c).h = (n : ℚ) ∧ 0 ≤ n ∧ n ≤ 360 := by
  have hr1 : (c.r : ℚ) / 255 ≤ 1 := by
    rw [div_le_one (by norm_num)]
    exact_mod_cast hr
  have hg1 : (c.g : ℚ) / 255 ≤ 1 := by
    rw [div_le_one (by norm_num)]
    exact_mod_cast hg
  have hb1 : (c.b : ℚ) / 255 ≤ 1 := by
    rw [div_le_one (by norm_num)]
    exact_mod_cast hb
  have hr0 : (0 : ℚ) ≤ (c.r : ℚ) / 255 := by positivity
  have hg0 : (0 : ℚ) ≤ (c.g : ℚ) / 255 := by positivity
  have hb0 : (0 : ℚ) ≤ (c.b : ℚ) / 255 := by positivity
  simp only [rgbToHsl, apply_ite HSL.h]
  set r : ℚ := (c.r : ℚ) / 255 with hrd
  set g : ℚ := (c.g : ℚ) / 255 with hgd
  set b : ℚ := (c.b : ℚ) / 255 with hbd
  set mx := max r (max g b) with hmxd
  set mn := min r (min g b) with hmnd
  have hrmx : r ≤ mx := le_max_left _ _
  have hgmx : g ≤ mx := le_trans (le_max_left _ _) (le_max_right _ _)
  have hbmx : b ≤ mx := le_trans (le_max_right _ _) (le_max_right _ _)
  have hmnr : mn ≤ r := min_le_left _ _
  have hmng : mn ≤ g := le_trans (min_le_right _ _) (min_le_left _ _)
  have hmnb : mn ≤ b := le_trans (min_le_right _ _) (min_le_right _ _)
  have hmnmx : mn ≤ mx := le_trans hmnr hrmx
  split_ifs with h1 h2 h3 h4
  · exact ⟨0, by norm_num⟩
  · -- mx = r, g < b : sector (g-b)/d + 6 ∈ [5,6)
    have hd : 0 < mx - mn := sub_pos.mpr (lt_of_le_of_ne hmnmx (Ne.symm h1))
    have hlo : (-1 : ℚ) ≤ (g - b) / (mx - mn) := by
      rw [le_div_iff hd]
      linarith
    have hhi : (g - b) / (mx - mn) < 0 := div_neg_of_neg_of_pos (by linarith) hd
    exact ⟨_, rfl, round_hue_bounds _ (by linarith) (by linarith)⟩
  · -- mx = r, ¬ g < b : sector (g-b)/d + 0 ∈ [0,1]
    have hd : 0 < mx - mn := sub_pos.mpr (lt_of_le_of_ne hmnmx (Ne.symm h1))
    have hlo : (0 : ℚ) ≤ (g - b) / (mx - mn) := div_nonneg (by linarith) (by linarith)
    have hhi : (g - b) / (mx - mn) ≤ 1 := by
      rw [div_le_one hd]
      linarith
    exact ⟨_, rfl, round_hue_bounds _ (by linarith) (by linarith)⟩
  · -- mx = g : sector (b-r)/d + 2 ∈ [1,3]
    have hd : 0 < mx - mn := sub_pos.mpr (lt_of_le_of_ne hmnmx (Ne.symm h1))
    have hlo : (-1 : ℚ) ≤ (b - r) / (mx - mn) := by
      rw [le_div_iff hd]
      linarith
    have hhi : (b - r) / (mx - mn) ≤ 1 := by
      rw [div_le_one hd]
      linarith
    exact ⟨_, rfl, round_hue_bounds _ (by linarith) (by linarith)⟩
  · -- otherwise (mx = b) : sector (r-g)/d + 4 ∈ [3,5]
    have hd : 0 < mx - mn := sub_pos.mpr (lt_of_le_of_ne hmnmx (Ne.symm h1))
    have hlo : (-1 : ℚ) ≤ (r - g) / (mx - mn) := by
      rw [le_div_iff hd]
      linarith
    have hhi : (r - g) / (mx - mn) ≤ 1 := by
      rw [div_le_one hd]
      linarith
    exact ⟨_, rfl, round_hue_bounds _ (by linarith) (by linarith)⟩

theorem hslS_bounds (c : RGB) (hr : c.r ≤ 255) (hg : c.g ≤ 255) (hb : c.b ≤ 255) :
    0 ≤ (rgbToHsl c).s ∧ (rgbToHsl c).s ≤ 1 := by
  have hr1 : (c.r : ℚ) / 255 ≤ 1 := by
    rw [div_le_one (by norm_num)]
    exact_mod_cast hr
  have hg1 : (c.g : ℚ) / 255 ≤ 1 := by
    rw [div_le_one (by norm_num)]
    exact_mod_cast hg
  have hb1 : (c.b : ℚ) / 255 ≤ 1 := by
    rw [div_le_one (by norm_num)]
    exact_mod_cast hb
  have hr0 : (0 : ℚ) ≤ (c.r : ℚ) / 255 := by positivity
  have hg0 : (0 : ℚ) ≤ (c.g : ℚ) / 255 := by positivity
  have hb0 : (0 : ℚ) ≤ (c.b : ℚ) / 255 := by positivity
  simp only [rgbToHsl, apply_ite HSL.s]
  set r : ℚ := (c.r : ℚ) / 255 with hrd
  set g : ℚ := (c.g : ℚ) / 255 with hgd
  set b : ℚ := (c.b : ℚ) / 255 with hbd
  set mx := max r (max g b) with hmxd
  set mn := min r (min g b) with hmnd
  have hrmx : r ≤ mx := le_max_left _ _
  have hmnr : mn ≤ r := min_le_left _ _
  have hmx1 : mx ≤ 1 := max_le hr1 (max_le hg1 hb1)
  have hmn0 : 0 ≤ mn := le_min hr0 (le_min hg0 hb0)
  have hmnmx : mn ≤ mx := le_trans hmnr hrmx
  split_ifs with h1 h2
  · norm_num
  · -- l > 1/2 : s = d / (2 - mx - mn)
    have hmxlt : mn < mx := lt_of_le_of_ne hmnmx (Ne.symm h1)
    have hden : 0 < 2 - mx - mn := by
      have hlt : mn < 1 := lt_of_lt_of_le hmxlt hmx1
      linarith
    constructor
    · exact div_nonneg (by linarith) (by linarith)
    · rw [div_le_one hden]
      linarith
  · -- l ≤ 1/2 : s = d / (mx + mn)
    have hmxlt : mn < mx := lt_of_le_of_ne hmnmx (Ne.symm h1)
    have hden : 0 < mx + mn := by
      have hpos : 0 < mx := lt_of_le_of_lt hmn0 hmxlt
      linarith
    constructor
    · exact div_nonneg (by linarith) (by linarith)
    · rw [div_le_one hden]
      linarith

theorem hslL_bounds (c : RGB) (hr : c.r ≤ 255) (hg : c.g ≤ 255) (hb : c.b ≤ 255) :
    0 ≤ (rgbToHsl c).l ∧ (rgbToHsl c).l ≤ 1 := by
  have hr1 : (c.r : ℚ) / 255 ≤ 1 := by
    rw [div_le_one (by norm_num)]
    exact_mod_cast hr
  have hg1 : (c.g : ℚ) / 255 ≤ 1 := by
    rw [div_le_one (by norm_num)]
    exact_mod_cast hg
  have hb1 : (c.b : ℚ) / 255 ≤ 1 := by
    rw [div_le_one (by norm_num)]
    exact_mod_cast hb
  have hr0 : (0 : ℚ) ≤ (c.r : ℚ) / 255 := by positivity
  have hg0 : (0 : ℚ) ≤ (c.g : ℚ) / 255 := by positivity
  have hb0 : (0 : ℚ) ≤ (c.b : ℚ) / 255 := by positivity
  simp only [rgbToHsl, apply_ite HSL.l, ite_self]
  set r : ℚ := (c.r : ℚ) / 255 with hrd
  set g : ℚ := (c.g : ℚ) / 255 with hgd
  set b : ℚ := (c.b : ℚ) / 255 with hbd
  set mx := max r (max g b) with hmxd
  set mn := min r (min g b) with hmnd
  have hmx1 : mx ≤ 1 := max_le hr1 (max_le hg1 hb1)
  have hmn0 : 0 ≤ mn := le_min hr0 (le_min hg0 hb0)
  have hmnmx : mn ≤ mx := le_trans (min_le_left _ _) (le_max_left _ _)
  constructor
  · positivity
  · rw [div_le_one (by norm_num : (0:ℚ) < 2)]
    linarith

theorem hsl_gray (c : RGB) (h1 : c.r = c.g) (h2 : c.g = c.b) :
    (rgbToHsl c).h = 0 ∧ (rgbToHsl c).s = 0 := by
  simp only [rgbToHsl, h1, h2, max_self, min_self, if_pos rfl]
  exact ⟨rfl, rfl⟩

/-- C3, amended: for every valid RGB triple, `rgbToHsl` returns an
integer-degree hue in the CLOSED range `[0,360]` (360 is attainable, by
rounding a sector value just below 6), saturation and lightness in `[0,1]`,
and the gray case (all channels equal, i.e. max = min) yields hue 0 and
saturation 0. -/
theorem c3_amended (c : RGB) (hr : c.r ≤ 255) (hg : c.g ≤ 255) (hb : c.b ≤ 255) :
    (∃ n : ℤ, (rgbToHsl c).h = (n : ℚ)) ∧
    (0 ≤ (rgbToHsl c).h ∧ (rgbToHsl c).h ≤ 360) ∧
    (0 ≤ (rgbToHsl c).s ∧ (rgbToHsl c).s ≤ 1) ∧
    (0 ≤ (rgbToHsl c).l ∧ (rgbToHsl c).l ≤ 1) ∧
    (c.r = c.g → c.g = c.b → (rgbToHsl c).h = 0 ∧ (rgbToHsl c).s = 0) := by
  obtain ⟨n, hn, hn0, hn360⟩ := hslH_bounds c hr hg hb
  refine ⟨⟨n, hn⟩, ⟨?_, ?_⟩, hslS_bounds c hr hg hb, hslL_bounds c hr hg hb,
    fun h1 h2 => hsl_gray c h1 h2⟩
  · rw [hn]; exact_mod_cast hn0
  · rw [hn]; exact_mod_cast hn360

/-- C3, witness: the amended bounds evaluated at rgb (255,0,1). -/
theorem c3_witness :
    0 ≤ (rgbToHsl ⟨255, 0, 1⟩).h ∧ (rgbToHsl ⟨255, 0, 1⟩).h ≤ 360 ∧
    0 ≤ (rgbToHsl ⟨255, 0, 1⟩).s ∧ (rgbToHsl ⟨255, 0, 1⟩).s ≤ 1 := by
  obtain ⟨-, ⟨ha, hb⟩, ⟨hc, hd⟩, -⟩ :=
    c3_amended ⟨255, 0, 1⟩ (by norm_num) (by norm_num) (by norm_num)
  exact ⟨ha, hb, hc, hd⟩

/-! ## Hex encoding lemmas -/

theorem natToHexAux_lt (fuel n : Nat) (h : n < 16) :
    natToHexAux (fuel + 1) n = [Nat.digitChar n] := by
  simp [natToHexAux, h]

theorem natToHexAux_ge (fuel n : Nat) (h : 16 ≤ n) :
    natToHexAux (fuel + 1) n = natToHexAux fuel (n / 16) ++ [Nat.digitChar (n % 16)] := by
  simp [natToHexAux, Nat.not_lt.mpr h]

theorem natToHexAux_fuel (n : Nat) :
    ∀ f1 f2, n < f1 → n < f2 → natToHexAux f1 n = natToHexAux f2 n := by
  induction n using Nat.strong_induction_on with
  | _ n ih =>
    intro f1 f2 h1 h2
    obtain ⟨a, rfl⟩ : ∃ k, f1 = k + 1 := ⟨f1 - 1, by omega⟩
    obtain ⟨b, rfl⟩ : ∃ k, f2 = k + 1 := ⟨f2 - 1, by omega⟩
    by_cases h16 : n < 16
    · rw [natToHexAux_lt _ _ h16, natToHexAux_lt _ _ h16]
    · push_neg at h16
      rw [natToHexAux_ge _ _ h16, natToHexAux_ge _ _ h16]
      have hdiv : n / 16 < n := Nat.div_lt_self (by omega) (by omega)
      rw [ih (n / 16) hdiv a (n / 16 + 1) (by omega) (by omega),
        ih (n / 16) hdiv b (n / 16 + 1) (by omega) (by omega)]

theorem natToHex_step (n : Nat) (h : 16 ≤ n) :
    natToHex n = natToHex (n / 16) ++ [Nat.digitChar (n % 16)] := by
  have hdiv : n / 16 < n := Nat.div_lt_self (by omega) (by omega)
  rw [natToHex, natToHexAux_ge _ _ h, natToHex,
    natToHexAux_fuel (n / 16) n (n / 16 + 1) hdiv (by omega)]

theorem natToHex_small (n : Nat) (h : n < 16) : natToHex n = [Nat.digitChar n] :=
  natToHexAux_lt n n h

theorem natToHex_bytes (r g b : Nat) (hr : r < 256) (hg : g < 256) (hb : b < 256) :
    natToHex (16777216 + (r * 65536 + (g * 256 + b))) =
      ['1', Nat.digitChar (r / 16), Nat.digitChar (r % 16), Nat.digitChar (g / 16),
       Nat.digitChar (g % 16), Nat.digitChar (b / 16), Nat.digitChar (b % 16)] := by
  have s0 := natToHex_step (16777216 + (r * 65536 + (g * 256 + b))) (by omega)
  have h0 : (16777216 + (r * 65536 + (g * 256 + b))) / 16 =
      1048576 + (r * 4096 + (g * 16 + b / 16)) := by omega
  have m0 : (16777216 + (r * 65536 + (g * 256 + b))) % 16 = b % 16 := by omega
  have s1 := natToHex_step (1048576 + (r * 4096 + (g * 16 + b / 16))) (by omega)
  have h1 : (1048576 + (r * 4096 + (g * 16 + b / 16))) / 16 = 65536 + (r * 256 + g) := by
    omega
  have m1 : (1048576 + (r * 4096 + (g * 16 + b / 16))) % 16 = b / 16 := by omega
  have s2 := natToHex_step (65536 + (r * 256 + g)) (by omega)
  have h2 : (65536 + (r * 256 + g)) / 16 = 4096 + (r * 16 + g / 16) := by omega
  have m2 : (65536 + (r * 256 + g)) % 16 = g % 16 := by omega
  have s3 := natToHex_step (4096 + (r * 16 + g / 16)) (by omega)
  have h3 : (4096 + (r * 16 + g / 16)) / 16 = 256 + r := by omega
  have m3 : (4096 + (r * 16 + g / 16)) % 16 = g / 16 := by omega
  have s4 := natToHex_step (256 + r) (by omega)
  have h4 : (256 + r) / 16 = 16 + r / 16 := by omega
  have m4 : (256 + r) % 16 = r % 16 := by omega
  have s5 := natToHex_step (16 + r / 16) (by omega)
  have h5 : (16 + r / 16) / 16 = 1 := by omega
  have m5 : (16 + r / 16) % 16 = r / 16 := by omega
  rw [s0, h0, m0, s1, h1, m1, s2, h2, m2, s3, h3, m3, s4, h4, m4, s5, h5, m5,
    natToHex_small 1 (by omega)]
  simp [Nat.digitChar]

theorem rgbToHex_data (c : RGB) (hr : c.r ≤ 255) (hg : c.g ≤ 255) (hb : c.b ≤ 255) :
    (rgbToHex c).data =
      ['#', Nat.digitChar (c.r / 16), Nat.digitChar (c.r % 16), Nat.digitChar (c.g / 16),
       Nat.digitChar (c.g % 16), Nat.digitChar (c.b / 16), Nat.digitChar (c.b % 16)] := by
  rw [rgbToHex]
  have harg : (1 <<< 24) + (c.r <<< 16) + (c.g <<< 8) + c.b =
      16777216 + (c.r * 65536 + (c.g * 256 + c.b)) := by
    simp only [Nat.shiftLeft_eq]
    norm_num
    omega
  rw [harg, natToHex_bytes c.r c.g c.b (by omega) (by omega) (by omega)]
  rfl

theorem hexVal_digitChar : ∀ n, n < 16 → hexVal (Nat.digitChar n) = n := by decide

theorem isHexDigitChar_digitChar :
    ∀ n, n < 16 → isHexDigitChar (Nat.digitChar n) = true := by decide

theorem digitChar_lowercase :
    ∀ n, n < 16 →
      ((Nat.digitChar n).isDigit = true ∨ ('a' ≤ Nat.digitChar n ∧ Nat.digitChar n ≤ 'f')) := by
  decide

theorem hexToRgb_rgbToHex (c : RGB) (hr : c.r ≤ 255) (hg : c.g ≤ 255) (hb : c.b ≤ 255) :
    hexToRgb (rgbToHex c) = some c := by
  obtain ⟨cr, cg, cb⟩ := c
  have hd := rgbToHex_data ⟨cr, cg, cb⟩ hr hg hb
  simp only at hd hr hg hb
  have e1 := isHexDigitChar_digitChar (cr / 16) (by omega)
  have e2 := isHexDigitChar_digitChar (cr % 16) (by omega)
  have e3 := isHexDigitChar_digitChar (cg / 16) (by omega)
  have e4 := isHexDigitChar_digitChar (cg % 16) (by omega)
  have e5 := isHexDigitChar_digitChar (cb / 16) (by omega)
  have e6 := isHexDigitChar_digitChar (cb % 16) (by omega)
  have v1 := hexVal_digitChar (cr / 16) (by omega)
  have v2 := hexVal_digitChar (cr % 16) (by omega)
  have v3 := hexVal_digitChar (cg / 16) (by omega)
  have v4 := hexVal_digitChar (cg % 16) (by omega)
  have v5 := hexVal_digitChar (cb / 16) (by omega)
  have v6 := hexVal_digitChar (cb % 16) (by omega)
  rw [hexToRgb, hd]
  simp [parseHexBody, e1, e2, e3, e4, e5, e6, v1, v2, v3, v4, v5, v6]
  omega

theorem rgbToHex_format (c : RGB) (hr : c.r ≤ 255) (hg : c.g ≤ 255) (hb : c.b ≤ 255) :
    ∃ t : List Char, (rgbToHex c).data = '#' :: t ∧ t.length = 6 ∧
      ∀ ch ∈ t, (ch.isDigit = true ∨ ('a' ≤ ch ∧ ch ≤ 'f')) := by
  obtain ⟨cr, cg, cb⟩ := c
  have hd := rgbToHex_data ⟨cr, cg, cb⟩ hr hg hb
  simp only at hd hr hg hb
  refine ⟨_, hd, rfl, ?_⟩
  intro ch hch
  simp only [List.mem_cons, List.not_mem_nil, or_false] at hch
  rcases hch with rfl | rfl | rfl | rfl | rfl | rfl
  · exact digitChar_lowercase (cr / 16) (by omega)
  · exact digitChar_lowercase (cr % 16) (by omega)
  · exact digitChar_lowercase (cg / 16) (by omega)
  · exact digitChar_lowercase (cg % 16) (by omega)
  · exact digitChar_lowercase (cb / 16) (by omega)
  · exact digitChar_lowercase (cb % 16) (by omega)

/-- C4: for every valid RGB triple, `rgbToHex` emits `#` followed by exactly
six lowercase hexadecimal digits, and `hexToRgb` inverts it. -/
theorem c4_hex_roundtrip (c : RGB) (hr : c.r ≤ 255) (hg : c.g ≤ 255) (hb : c.b ≤ 255) :
    hexToRgb (rgbToHex c) = some c ∧
    ∃ t : List Char, (rgbToHex c).data = '#' :: t ∧ t.length = 6 ∧
      ∀ ch ∈ t, (ch.isDigit = true ∨ ('a' ≤ ch ∧ ch ≤ 'f')) :=
  ⟨hexToRgb_rgbToHex c hr hg hb, rgbToHex_format c hr hg hb⟩

/-- C4, witness: the round trip and format at rgb (255, 0, 1). -/
theorem c4_witness : hexToRgb (rgbToHex ⟨255, 0, 1⟩) = some ⟨255, 0, 1⟩ :=
  (c4_hex_roundtrip ⟨255, 0, 1⟩ (by decide) (by decide) (by decide)).1

theorem parseHexBody_isSome (t : List Char) :
    (parseHexBody t).isSome = true ↔
      t.length = 6 ∧ ∀ ch ∈ t, isHexDigitChar ch = true := by
  rcases t with _ | ⟨a1, _ | ⟨a2, _ | ⟨a3, _ | ⟨a4, _ | ⟨a5, _ | ⟨a6, _ | ⟨a7, t⟩⟩⟩⟩⟩⟩⟩ <;>
    simp [parseHexBody]
  by_cases h1 : isHexDigitChar a1 <;> by_cases h2 : isHexDigitChar a2 <;>
    by_cases h3 : isHexDigitChar a3 <;> by_cases h4 : isHexDigitChar a4 <;>
    by_cases h5 : isHexDigitChar a5 <;> by_cases h6 : isHexDigitChar a6 <;>
    simp [h1, h2, h3, h4, h5, h6]

/-- C9: `hexToRgb` succeeds exactly on an optional leading `#` followed by
exactly six hex digits (case-insensitive), and returns the absence value —
not an error — on everything else, e.g. on "not-a-color". -/
theorem c9_hexToRgb_parsing :
    (∀ s : String, (hexToRgb s).isSome = true ↔ validHexFormat s) ∧
    hexToRgb "not-a-color" = none := by
  constructor
  · intro s
    by_cases hh : s.data.head? = some '#'
    · obtain ⟨c0, t0, hdt⟩ : ∃ c0 t0, s.data = c0 :: t0 := by
        cases hsd : s.data with
        | nil => rw [hsd] at hh; simp at hh
        | cons a t => exact ⟨a, t, rfl⟩
      have hc0 : c0 = '#' := by
        rw [hdt] at hh
        simpa using hh
      subst hc0
      rw [hexToRgb, if_pos hh, validHexFormat, hdt, List.tail_cons, parseHexBody_isSome]
      constructor
      · rintro ⟨hl, hall⟩
        exact ⟨t0, Or.inl rfl, hl, hall⟩
      · rintro ⟨t, ht | ht, hl, hall⟩
        · obtain rfl : t0 = t := by
            injection ht
          exact ⟨hl, hall⟩
        · exfalso
          have hmem : '#' ∈ t := by
            rw [← ht]
            exact List.mem_cons_self _ _
          have := hall '#' hmem
          simp [isHexDigitChar] at this
    · rw [hexToRgb, if_neg hh, validHexFormat, parseHexBody_isSome]
      constructor
      · rintro ⟨hl, hall⟩
        exact ⟨s.data, Or.inr rfl, hl, hall⟩
      · rintro ⟨t, ht | ht, hl, hall⟩
        · rw [ht] at hh
          simp at hh
        · rw [ht]
          exact ⟨hl, hall⟩
  · decide

/-! ## Extraction pipeline lemmas -/

theorem filterDistinct_append (mc : Nat) :
    ∀ (rest acc : List Bucket), ∃ sub : List Bucket,
      List.Sublist sub rest ∧ filterDistinct mc acc rest = acc ++ sub := by
  intro rest
  induction rest with
  | nil =>
    intro acc
    exact ⟨[], List.Sublist.refl _, by simp [filterDistinct]⟩
  | cons c rest ih =>
    intro acc
    rw [filterDistinct]
    split_ifs with h1 h2
    · exact ⟨[], List.nil_sublist _, by simp⟩
    · obtain ⟨sub, hs, he⟩ := ih (acc ++ [c])
      exact ⟨c :: sub, List.Sublist.cons₂ c hs, by rw [he, List.append_assoc]; rfl⟩
    · obtain ⟨sub, hs, he⟩ := ih acc
      exact ⟨sub, List.Sublist.cons c hs, he⟩

theorem filterDistinct_sublist (mc : Nat) (l : List Bucket) :
    List.Sublist (filterDistinct mc [] l) l := by
  obtain ⟨sub, hs, he⟩ := filterDistinct_append mc l []
  rw [he]
  simpa using hs

theorem filterDistinct_pairwise (mc : Nat) :
    ∀ (rest acc : List Bucket),
      acc.Pairwise (fun a b => 2500 < colorDistanceSq ⟨a.r, a.g, a.b⟩ ⟨b.r, b.g, b.b⟩) →
      (filterDistinct mc acc rest).Pairwise
        (fun a b => 2500 < colorDistanceSq ⟨a.r, a.g, a.b⟩ ⟨b.r, b.g, b.b⟩) := by
  intro rest
  induction rest with
  | nil =>
    intro acc h
    simpa [filterDistinct] using h
  | cons c rest ih =>
    intro acc h
    rw [filterDistinct]
    split_ifs with h1 h2
    · exact h
    · apply ih
      rw [List.pairwise_append]
      refine ⟨h, List.pairwise_singleton _ _, ?_⟩
      intro a ha b hb
      rw [List.mem_singleton] at hb
      subst hb
      have hall := List.all_eq_true.mp h2 a ha
      simpa using hall
    · exact ih acc h

theorem colorDistanceSq_comm (x y : RGB) : colorDistanceSq x y = colorDistanceSq y x := by
  rw [colorDistanceSq, colorDistanceSq]
  ring

theorem extractColors_ok (ra : Raster) (sr mc : Nat) (res : PaletteAnalysis)
    (h : extractColors ra sr mc = .ok res) :
    res.all = (distinctOf ra.data sr mc).map toColorData ∧
    res.warm = res.all.filter (fun c => decide (c.category = .Warm)) ∧
    res.cool = res.all.filter (fun c => decide (c.category = .Cool)) ∧
    res.neutral = res.all.filter (fun c => decide (c.category = .Neutral)) ∧
    res.accents = res.all.filter (fun c => isAccentColor c.hsl) := by
  simp only [extractColors] at h
  split_ifs at h with h1
  injection h with h
  subst h
  exact ⟨rfl, rfl, rfl, rfl, rfl⟩

theorem insertByCount_perm (a : Bucket) (l : List Bucket) :
    (insertByCount a l).Perm (a :: l) := by
  induction l with
  | nil => simp [insertByCount]
  | cons x xs ih =>
    rw [insertByCount]
    split_ifs with h
    · exact (ih.cons x).trans (List.Perm.swap a x xs)
    · exact List.Perm.refl _

theorem sortByCountDesc_perm (l : List Bucket) : (sortByCountDesc l).Perm l := by
  induction l with
  | nil => rfl
  | cons x xs ih =>
    rw [sortByCountDesc]
    exact (insertByCount_perm x _).trans (ih.cons x)

theorem insertByCount_sorted (a : Bucket) (l : List Bucket)
    (h : l.Pairwise (fun x y => y.count ≤ x.count)) :
    (insertByCount a l).Pairwise (fun x y => y.count ≤ x.count) := by
  induction l with
  | nil => simp [insertByCount]
  | cons x xs ih =>
    rw [List.pairwise_cons] at h
    rw [insertByCount]
    split_ifs with hlt
    · rw [List.pairwise_cons]
      constructor
      · intro y hy
        have hy2 : y ∈ a :: xs := (insertByCount_perm a xs).subset hy
        rcases List.mem_cons.mp hy2 with rfl | hy3
        · omega
        · exact h.1 y hy3
      · exact ih h.2
    · rw [List.pairwise_cons]
      constructor
      · intro y hy
        rcases List.mem_cons.mp hy with rfl | hy2
        · omega
        · have := h.1 y hy2
          omega
      · rw [List.pairwise_cons]
        exact ⟨h.1, h.2⟩

theorem sortByCountDesc_sorted (l : List Bucket) :
    (sortByCountDesc l).Pairwise (fun x y => y.count ≤ x.count) := by
  induction l with
  | nil => simp [sortByCountDesc]
  | cons x xs ih =>
    rw [sortByCountDesc]
    exact insertByCount_sorted x _ ih

theorem insertByCount_filter_eq (a : Bucket) (l : List Bucket) (n : Nat) (ha : a.count = n) :
    (insertByCount a l).filter (fun x => decide (x.count = n)) =
      a :: l.filter (fun x => decide (x.count = n)) := by
  induction l with
  | nil => simp [insertByCount, ha]
  | cons x xs ih =>
    rw [insertByCount]
    split_ifs with hlt
    · have hx : ¬ x.count = n := by omega
      rw [List.filter_cons_of_neg (by simpa using hx), ih,
        List.filter_cons_of_neg (by simpa using hx)]
    · rw [List.filter_cons_of_pos (by simpa using ha)]

theorem insertByCount_filter_ne (a : Bucket) (l : List Bucket) (n : Nat) (ha : ¬ a.count = n) :
    (insertByCount a l).filter (fun x => decide (x.count = n)) =
      l.filter (fun x => decide (x.count = n)) := by
  induction l with
  | nil => simp [insertByCount, ha]
  | cons x xs ih =>
    rw [insertByCount]
    split_ifs with hlt
    · by_cases hx : x.count = n
      · rw [List.filter_cons_of_pos (by simpa using hx), ih,
          List.filter_cons_of_pos (by simpa using hx)]
      · rw [List.filter_cons_of_neg (by simpa using hx), ih,
          List.filter_cons_of_neg (by simpa using hx)]
    · rw [List.filter_cons_of_neg (by simpa using ha)]

theorem sortByCountDesc_filter (l : List Bucket) (n : Nat) :
    (sortByCountDesc l).filter (fun x => decide (x.count = n)) =
      l.filter (fun x => decide (x.count = n)) := by
  induction l with
  | nil => rfl
  | cons x xs ih =>
    rw [sortByCountDesc]
    by_cases hx : x.count = n
    · rw [insertByCount_filter_eq x _ n hx, ih, List.filter_cons_of_pos (by simpa using hx)]
    · rw [insertByCount_filter_ne x _ n hx, ih, List.filter_cons_of_neg (by simpa using hx)]

theorem readByte_le (data : List Nat) (hdata : ∀ x ∈ data, x ≤ 255) (i : Nat) :
    readByte data i ≤ 255 := by
  rw [readByte]
  by_cases hi : i < data.length
  · rw [List.getD_eq_get _ _ hi]
    exact hdata _ (List.get_mem _ _ _)
  · rw [List.getD_eq_default _ _ (by omega)]
    omega

theorem stepPixel_channels (data : List Nat) (hdata : ∀ x ∈ data, x ≤ 255)
    (m : List (Nat × Bucket)) (i : Nat)
    (hm : ∀ p ∈ m, (12 ∣ p.2.r ∧ p.2.r ≤ 252) ∧ (12 ∣ p.2.g ∧ p.2.g ≤ 252) ∧
      (12 ∣ p.2.b ∧ p.2.b ≤ 252)) :
    ∀ p ∈ stepPixel data m i, (12 ∣ p.2.r ∧ p.2.r ≤ 252) ∧ (12 ∣ p.2.g ∧ p.2.g ≤ 252) ∧
      (12 ∣ p.2.b ∧ p.2.b ≤ 252) := by
  intro p hp
  simp only [stepPixel, quantize] at hp
  split_ifs at hp with h1 h2
  · exact hm p hp
  · rw [List.mem_map] at hp
    obtain ⟨q, hq, rfl⟩ := hp
    split_ifs with hk
    · exact hm q hq
    · exact hm q hq
  · rw [List.mem_append] at hp
    rcases hp with hp | hp
    · exact hm p hp
    · rw [List.mem_singleton] at hp
      subst hp
      have hvr := readByte_le data hdata i
      have hvg := readByte_le data hdata (i + 1)
      have hvb := readByte_le data hdata (i + 2)
      refine ⟨⟨?_, ?_⟩, ⟨?_, ?_⟩, ?_, ?_⟩ <;> simp only [] <;> omega

theorem colorCounts_channels (data : List Nat) (sr : Nat) (hdata : ∀ x ∈ data, x ≤ 255) :
    ∀ p ∈ colorCounts data sr, (12 ∣ p.2.r ∧ p.2.r ≤ 252) ∧ (12 ∣ p.2.g ∧ p.2.g ≤ 252) ∧
      (12 ∣ p.2.b ∧ p.2.b ≤ 252) := by
  rw [colorCounts]
  have key : ∀ (idxs : List Nat) (m : List (Nat × Bucket)),
      (∀ p ∈ m, (12 ∣ p.2.r ∧ p.2.r ≤ 252) ∧ (12 ∣ p.2.g ∧ p.2.g ≤ 252) ∧
        (12 ∣ p.2.b ∧ p.2.b ≤ 252)) →
      ∀ p ∈ idxs.foldl (stepPixel data) m, (12 ∣ p.2.r ∧ p.2.r ≤ 252) ∧
        (12 ∣ p.2.g ∧ p.2.g ≤ 252) ∧ (12 ∣ p.2.b ∧ p.2.b ≤ 252) := by
    intro idxs
    induction idxs with
    | nil =>
      intro m hm
      simpa using hm
    | cons i is ih =>
      intro m hm
      rw [List.foldl_cons]
      exact ih _ (stepPixel_channels data hdata m i hm)
  exact key _ [] (by simp)

theorem distinctOf_mem (data : List Nat) (sr mc : Nat) (b : Bucket)
    (hb : b ∈ distinctOf data sr mc) : ∃ p ∈ colorCounts data sr, p.2 = b := by
  rw [distinctOf] at hb
  have h1 : b ∈ sortByCountDesc ((colorCounts data sr).map Prod.snd) :=
    (filterDistinct_sublist mc _).subset hb
  have h2 : b ∈ (colorCounts data sr).map Prod.snd := (sortByCountDesc_perm _).subset h1
  obtain ⟨p, hp, hpb⟩ := List.mem_map.mp h2
  exact ⟨p, hp, hpb⟩

/-- C5: in any successful extraction result, any two entries of `all` at
distinct positions are more than 2500 apart in squared RGB distance. -/
theorem c5_distinctness (ra : Raster) (sr mc : Nat) (res : PaletteAnalysis)
    (hok : extractColors ra sr mc = .ok res) :
    ∀ i j (hi : i < res.all.length) (hj : j < res.all.length), i ≠ j →
      2500 < colorDistanceSq (res.all.get ⟨i, hi⟩).rgb (res.all.get ⟨j, hj⟩).rgb := by
  obtain ⟨hall, -, -, -, -⟩ := extractColors_ok ra sr mc res hok
  have hpw : res.all.Pairwise (fun a b => 2500 < colorDistanceSq a.rgb b.rgb) := by
    rw [hall, distinctOf]
    refine List.Pairwise.map toColorData (fun a b hab => hab) ?_
    exact filterDistinct_pairwise mc _ [] List.Pairwise.nil
  intro i j hi hj hne
  rcases Nat.lt_or_ge i j with hij | hij
  · exact List.pairwise_iff_get.mp hpw ⟨i, hi⟩ ⟨j, hj⟩ hij
  · have hji : j < i := by omega
    have hlt := List.pairwise_iff_get.mp hpw ⟨j, hj⟩ ⟨i, hi⟩ hji
    rw [colorDistanceSq_comm]
    exact hlt

/-- C5, witness: the two entries extracted from the test raster are more
than 2500 apart. -/
theorem c5_witness : 2500 < colorDistanceSq redData.rgb blueData.rgb :=
  c5_distinctness testRaster 1 8 testResult extractColors_testRaster 0 1
    (by decide) (by decide) (by decide)

/-- C6: a raster with zero width or zero height makes extraction fail with
`InvalidInput`; no sampling happens and no palette is produced. -/
theorem c6_invalid_input (ra : Raster) (sr mc : Nat) (h : ra.width = 0 ∨ ra.height = 0) :
    extractColors ra sr mc = .error .invalidInput := by
  rw [extractColors, if_pos h]

/-- C6, witness: a 0×5 raster is rejected. -/
theorem c6_witness : extractColors ⟨0, 5, []⟩ 3 4 = .error .invalidInput :=
  c6_invalid_input ⟨0, 5, []⟩ 3 4 (Or.inl rfl)

/-- C7: `all` is sorted by descending population, it is the image of the
greedily filtered stable ranking, and for every population value the
surviving buckets with that population form a subsequence of the
first-encounter (insertion) order of the `colorCounts` map. -/
theorem c7_ranking (ra : Raster) (sr mc : Nat) (res : PaletteAnalysis)
    (hok : extractColors ra sr mc = .ok res) :
    res.all.Pairwise (fun a b => b.population ≤ a.population) ∧
    res.all = (distinctOf ra.data sr mc).map toColorData ∧
    ∀ n : Nat, List.Sublist
      ((distinctOf ra.data sr mc).filter (fun x => decide (x.count = n)))
      (((colorCounts ra.data sr).map Prod.snd).filter (fun x => decide (x.count = n))) := by
  obtain ⟨hall, -, -, -, -⟩ := extractColors_ok ra sr mc res hok
  refine ⟨?_, hall, ?_⟩
  · rw [hall, distinctOf]
    refine List.Pairwise.map toColorData (fun a b hab => hab) ?_
    have hsor := sortByCountDesc_sorted ((colorCounts ra.data sr).map Prod.snd)
    exact List.Pairwise.sublist (filterDistinct_sublist mc _) hsor
  · intro n
    have h1 : List.Sublist (distinctOf ra.data sr mc)
        (sortByCountDesc ((colorCounts ra.data sr).map Prod.snd)) := by
      rw [distinctOf]
      exact filterDistinct_sublist mc _
    have h2 := h1.filter (fun x => decide (x.count = n))
    rw [sortByCountDesc_filter] at h2
    exact h2

/-- C7, witness: the ranking properties on the test raster. -/
theorem c7_witness : testResult.all.Pairwise (fun a b => b.population ≤ a.population) :=
  (c7_ranking testRaster 1 8 testResult extractColors_testRaster).1

/-- C8: category partitions `all` exactly (each entry lands in exactly one
of warm/cool/neutral), each of the auxiliary sequences only holds entries
of `all`, and `accents` is exactly the `isAccentColor` filter of `all`
(saturation ≥ 0.45 and lightness in [0.2, 0.85]), independent of
category. -/
theorem c8_partition (ra : Raster) (sr mc : Nat) (res : PaletteAnalysis)
    (hok : extractColors ra sr mc = .ok res) :
    (∀ c ∈ res.all,
      (c ∈ res.warm ∧ c ∉ res.cool ∧ c ∉ res.neutral) ∨
      (c ∉ res.warm ∧ c ∈ res.cool ∧ c ∉ res.neutral) ∨
      (c ∉ res.warm ∧ c ∉ res.cool ∧ c ∈ res.neutral)) ∧
    (∀ c : ColorData,
      (c ∈ res.warm ∨ c ∈ res.cool ∨ c ∈ res.neutral ∨ c ∈ res.accents) → c ∈ res.all) ∧
    res.accents = res.all.filter (fun c => isAccentColor c.hsl) ∧
    (∀ x : HSL, isAccentColor x = true ↔
      ((0.45 : ℚ) ≤ x.s ∧ (0.2 : ℚ) ≤ x.l ∧ x.l ≤ (0.85 : ℚ))) := by
  obtain ⟨hall, hw, hc, hn, ha⟩ := extractColors_ok ra sr mc res hok
  have hwiff : ∀ c, c ∈ res.warm ↔ (c ∈ res.all ∧ c.category = .Warm) := by
    intro c
    rw [hw, List.mem_filter]
    simp
  have hciff : ∀ c, c ∈ res.cool ↔ (c ∈ res.all ∧ c.category = .Cool) := by
    intro c
    rw [hc, List.mem_filter]
    simp
  have hniff : ∀ c, c ∈ res.neutral ↔ (c ∈ res.all ∧ c.category = .Neutral) := by
    intro c
    rw [hn, List.mem_filter]
    simp
  refine ⟨?_, ?_, ha, ?_⟩
  · intro c hcm
    cases hcat : c.category with
    | Warm => exact Or.inl (by simp [hwiff, hciff, hniff, hcm, hcat])
    | Cool => exact Or.inr (Or.inl (by simp [hwiff, hciff, hniff, hcm, hcat]))
    | Neutral => exact Or.inr (Or.inr (by simp [hwiff, hciff, hniff, hcm, hcat]))
  · intro c hcm
    rcases hcm with h | h | h | h
    · exact ((hwiff c).mp h).1
    · exact ((hciff c).mp h).1
    · exact ((hniff c).mp h).1
    · rw [ha, List.mem_filter] at h
      exact h.1
  · intro x
    simp [isAccentColor, and_assoc]

/-- C8, witness: on the test raster, `accents` is the accent filter of
`all`. -/
theorem c8_witness :
    testResult.accents = testResult.all.filter (fun c => isAccentColor c.hsl) :=
  (c8_partition testRaster 1 8 testResult extractColors_testRaster).2.2.1

/-- C10: every entry of every sequence of a successful extraction result has
RGB channels that are multiples of the quantization step 12 and at most 252,
its hex and hsl fields are computed from that quantized RGB, and its hex can
never be "#ffffff". -/
theorem c10_quantized (ra : Raster) (sr mc : Nat) (res : PaletteAnalysis)
    (hdata : ∀ x ∈ ra.data, x ≤ 255) (hok : extractColors ra sr mc = .ok res) :
    ∀ c : ColorData,
      (c ∈ res.all ∨ c ∈ res.warm ∨ c ∈ res.cool ∨ c ∈ res.neutral ∨ c ∈ res.accents) →
      (12 ∣ c.rgb.r ∧ c.rgb.r ≤ 252) ∧ (12 ∣ c.rgb.g ∧ c.rgb.g ≤ 252) ∧
      (12 ∣ c.rgb.b ∧ c.rgb.b ≤ 252) ∧
      c.hex = rgbToHex c.rgb ∧ c.hsl = rgbToHsl c.rgb ∧ c.hex ≠ "#ffffff" := by
  obtain ⟨hall, hw, hc, hn, ha⟩ := extractColors_ok ra sr mc res hok
  intro c hcm
  have hcall : c ∈ res.all := by
    rcases hcm with h | h | h | h | h
    · exact h
    · rw [hw, List.mem_filter] at h
      exact h.1
    · rw [hc, List.mem_filter] at h
      exact h.1
    · rw [hn, List.mem_filter] at h
      exact h.1
    · rw [ha, List.mem_filter] at h
      exact h.1
  rw [hall] at hcall
  obtain ⟨b, hb, rfl⟩ := List.mem_map.mp hcall
  obtain ⟨p, hp, hpb⟩ := distinctOf_mem ra.data sr mc b hb
  have hq := colorCounts_channels ra.data sr hdata p hp
  rw [hpb] at hq
  refine ⟨hq.1, hq.2.1, hq.2.2, rfl, rfl, ?_⟩
  intro hhex
  have hrt : hexToRgb (rgbToHex ⟨b.r, b.g, b.b⟩) = some ⟨b.r, b.g, b.b⟩ :=
    hexToRgb_rgbToHex ⟨b.r, b.g, b.b⟩ (by show b.r ≤ 255; omega)
      (by show b.g ≤ 255; omega) (by show b.b ≤ 255; omega)
  have hhex2 : (toColorData b).hex = rgbToHex ⟨b.r, b.g, b.b⟩ := rfl
  rw [hhex2] at hhex
  rw [hhex] at hrt
  have hff : hexToRgb "#ffffff" = some ⟨255, 255, 255⟩ := by decide
  rw [hff] at hrt
  injection hrt with hrt
  rw [RGB.mk.injEq] at hrt
  omega

/-- C10, witness: the red entry of the test raster satisfies the quantized
channel facts. -/
theorem c10_witness :
    (12 ∣ redData.rgb.r ∧ redData.rgb.r ≤ 252) ∧ redData.hex = rgbToHex redData.rgb ∧
      redData.hex ≠ "#ffffff" := by
  have h := c10_quantized testRaster 1 8 testResult (by decide) extractColors_testRaster
    redData (Or.inl (List.mem_cons_self _ _))
  exact ⟨h.1, h.2.2.2.1, h.2.2.2.2.2⟩

/-- C9, witness: the malformed input of the concrete scenario parses to
`none`, and a well-formed 6-digit input parses successfully. -/
theorem c9_witness :
    hexToRgb "not-a-color" = none ∧ (hexToRgb "#a0B1c2").isSome = true := by
  refine ⟨c9_hexToRgb_parsing.2, ?_⟩
  refine (c9_hexToRgb_parsing.1 "#a0B1c2").mpr ⟨['a', '0', 'B', '1', 'c', '2'], ?_, rfl, ?_⟩
  · exact Or.inl rfl
  · decide

/-- C2, witness: with s = l = 0.5, hue 89 is Warm and hue 90 is not. -/
theorem c2_witness :
    categorizeColor ⟨89, 0.5, 0.5⟩ = .Warm ∧ categorizeColor ⟨90, 0.5, 0.5⟩ ≠ .Warm := by
  constructor
  · exact (c2_categorize_rules.2.2.2 89 (by norm_num) (by norm_num)).mpr
      (Or.inl (by norm_num))
  · intro hw
    have h := (c2_categorize_rules.2.2.2 90 (by norm_num) (by norm_num)).mp hw
    rcases h with h | h <;> norm_num at h

end ChromeLens
